import Mathlib

/-
  Verification development for the shipwire/redis client library.

  The Go sources are shallowly embedded: byte streams become `List Char`
  values (one entry per byte; all bytes of interest are ASCII), mutation of
  a `RESP` value becomes explicit state passing, and the producer goroutine
  of `RESP.Array` becomes a pure recursive function over the stream (the
  sequential-completion schedule: the producer publishes all elements before
  the consumer acts; for flat arrays the two tasks only communicate through
  the FIFO channel, so the delivered sequence is the same).

  `fmt.Fscanf(r, "%d\r\n", &i)` and `bufio.Scanner` are Go standard library
  collaborators; they are modelled by their documented net effect on an
  in-memory stream shorter than the scanner buffer: Fscanf consumes exactly
  the sign, the digits and the terminating CRLF; Scanner consumes the whole
  remaining stream and yields the first line with a single trailing CR
  stripped.
-/


namespace ShipRedis

/-- CRLF delimiter bytes used throughout the RESP wire format. -/
def crlf : List Char := ['\r', '\n']

/-- Decimal digit character for a value below ten (last digit for larger input). -/
def digitChar (n : Nat) : Char :=
  match n with
  | 0 => '0' | 1 => '1' | 2 => '2' | 3 => '3' | 4 => '4'
  | 5 => '5' | 6 => '6' | 7 => '7' | 8 => '8' | _ => '9'

/-- Numeric value of a digit character. -/
def digitVal (c : Char) : Nat := c.toNat - 48

/-- Fuel-indexed decimal printer (structural recursion so the kernel can evaluate it). -/
def natCharsAux : Nat → Nat → List Char
  | 0, _ => []
  | fuel + 1, n => if n < 10 then [digitChar n] else natCharsAux fuel (n / 10) ++ [digitChar (n % 10)]

/-- Decimal representation of a natural number, most significant digit first. -/
def natChars (n : Nat) : List Char := natCharsAux (n + 1) n

/-- Decimal representation of an integer, mirroring Go formatting of int64 values. -/
def intChars (i : Int) : List Char :=
  if i < 0 then '-' :: natChars (-i).toNat else natChars i.toNat

/-- Value of a digit string, most significant digit first. -/
def digitsToNat (l : List Char) : Nat :=
  l.foldl (fun a c => a * 10 + digitVal c) 0

/-- RedisType represents one of the five types RESP values may take or it is unknown or invalid. -/
inductive RedisType where
  | UnknownType
  | InvalidType
  | SimpleStringType
  | ErrorType
  | IntegerType
  | BulkStringType
  | ArrayType
  | NullType
deriving DecidableEq, Repr

/-- Errors surfaced by the decoder: ErrInvalidType for accessor/type mismatch,
io.ErrUnexpectedEOF from the simple-string scan, scanner or strconv failures,
and transport write failures on the command path. -/
inductive RespErr where
  | errInvalidType
  | errUnexpectedEOF
  | errScan
  | errWrite
deriving DecidableEq, Repr

instance {ε α : Type} [DecidableEq ε] [DecidableEq α] : DecidableEq (Except ε α) := fun a b =>
  match a, b with
  | .ok x, .ok y => decidable_of_iff (x = y) (by simp)
  | .ok _, .error _ => .isFalse (by simp)
  | .error _, .ok _ => .isFalse (by simp)
  | .error d, .error e => decidable_of_iff (d = e) (by simp)

/-- RESP reads successive values in REdis Serialization Protocol (struct RESP of the
resp package). The `lastWasArray` field of the source is used only to defer draining
a nested array inside an array; every state considered in this development has it
nil, so it is not carried. -/
structure RESP where
  r : List Char
  length : Int
  redisType : RedisType
deriving DecidableEq, Repr

/-- New creates a new RESP value from the given reader. -/
def RESP.new (s : List Char) : RESP := ⟨s, 0, .UnknownType⟩

/-- The redisTypeMap framing-byte table; an unrecognized byte yields the map's zero
value UnknownType, which sends Type into its default (Invalid) branch. -/
def typeMapLookup (c : Char) : RedisType :=
  if c = '+' then .SimpleStringType
  else if c = '-' then .ErrorType
  else if c = ':' then .IntegerType
  else if c = '$' then .BulkStringType
  else if c = '*' then .ArrayType
  else .UnknownType

/-- Consume a CRLF pair if it is next on the stream (the literal tail of the
Fscanf format string). -/
def consumeCRLF (s : List Char) : List Char :=
  match s with
  | c :: d :: rest => if c = '\r' ∧ d = '\n' then rest else s
  | _ => s

/-- Split a leading sign character off a decimal token, as both fmt's verb
scanner and strconv.ParseInt do. -/
def splitSign (l : List Char) : Bool × List Char :=
  match l with
  | c :: rest =>
    if c = '-' then (true, rest) else if c = '+' then (false, rest) else (false, c :: rest)
  | [] => (false, [])

/-- Modelled from the Go standard library contract of `fmt.Fscanf(r, "%d\r\n", &i)`
as used by extractLength: consume an optional sign, the decimal digits and the
terminating CRLF, returning the signed value and the rest of the stream (on a
malformed header Fscanf's exact partial consumption differs; no claim depends
on that case). -/
def extractLength (s : List Char) : Int × List Char :=
  let p := splitSign s
  let ds := p.2.takeWhile Char.isDigit
  let s2 := p.2.dropWhile Char.isDigit
  let v : Int := (digitsToNat ds : Nat)
  (if p.1 then -v else v, consumeCRLF s2)

/-- Type determines the redis type of a RESP (RESP.Type of the source; `Type` is a
Lean keyword, hence the name rtype). Reads one framing byte when no classification
is cached; for length-prefixed types it also reads the decimal length, and a length
of -1 returns NullType without caching any classification. -/
def RESP.rtype (r : RESP) : RedisType × RESP :=
  if r.redisType = .UnknownType then
    match r.r with
    | [] => (.UnknownType, r)
    | firstByte :: rest =>
      match typeMapLookup firstByte with
      | .BulkStringType =>
        let el := extractLength rest
        if el.1 = -1 then (.NullType, { r with r := el.2, length := el.1 })
        else (.BulkStringType, { r := el.2, length := el.1, redisType := .BulkStringType })
      | .ArrayType =>
        let el := extractLength rest
        if el.1 = -1 then (.NullType, { r with r := el.2, length := el.1 })
        else (.ArrayType, { r := el.2, length := el.1, redisType := .ArrayType })
      | .SimpleStringType => (.SimpleStringType, { r with r := rest, redisType := .SimpleStringType })
      | .IntegerType => (.IntegerType, { r with r := rest, redisType := .IntegerType })
      | .ErrorType => (.ErrorType, { r with r := rest, redisType := .ErrorType })
      | _ => (.InvalidType, { r with r := rest, redisType := .InvalidType })
  else (r.redisType, r)

/-- The rune loop of RESP.SimpleString: scan until a CRLF pair, keeping lone CR or
LF bytes; returns the scanned text and the unconsumed remainder (the source pushes
buffered bytes back with io.MultiReader), or none at end of stream. -/
def simpleScan : Bool → List Char → Option (List Char × List Char)
  | _, [] => none
  | expectNL, c :: rest =>
    if expectNL ∧ c = '\n' then some ([], rest)
    else
      let tailRes :=
        if c = '\r' then simpleScan true rest
        else (simpleScan false rest).map fun p => (c :: p.1, p.2)
      if expectNL then tailRes.map (fun p => ('\r' :: p.1, p.2)) else tailRes

/-- SimpleString returns the value of a RESP as a simple string. -/
def RESP.SimpleString (r0 : RESP) : Except RespErr (List Char) × RESP :=
  let p := r0.rtype
  if p.1 = .SimpleStringType then
    match simpleScan false p.2.r with
    | some sr => (.ok sr.1, { p.2 with r := sr.2, redisType := .UnknownType })
    | none => (.error .errUnexpectedEOF, { p.2 with r := [], redisType := .UnknownType })
  else (.error .errInvalidType, p.2)

/-- ScanLines' dropCR: strip one trailing carriage return. -/
def dropTrailingCR (l : List Char) : List Char :=
  if l.getLast? = some '\r' then l.dropLast else l

/-- Modelled from the Go standard library contract of `bufio.Scanner` with the
default ScanLines split, as used by RESP.Error and RESP.Int: the first line
(up to an unreturned LF, one trailing CR stripped; at end of input the final
unterminated line) or none when no input remains. The scanner buffers ahead of
the token, so on an in-memory stream shorter than its buffer the underlying
reader is left drained; extractors using it therefore leave `r` empty. -/
def scanLine (s : List Char) : Option (List Char) :=
  if s = [] then none
  else some (dropTrailingCR (s.takeWhile (fun c => ¬ c = '\n')))

/-- Error returns the value of a RESP as an error (the `.ok` payload is the text
wrapped by errors.New in the source). -/
def RESP.Error (r0 : RESP) : Except RespErr (List Char) × RESP :=
  let p := r0.rtype
  if p.1 = .ErrorType then
    match scanLine p.2.r with
    | some line => (.ok line, { p.2 with r := [], redisType := .UnknownType })
    | none => (.error .errScan, { p.2 with r := [], redisType := .UnknownType })
  else (.error .errInvalidType, p.2)

/-- Modelled from the Go standard library contract of `strconv.ParseInt(s, 10, 64)`:
an optional sign followed by at least one digit, rejected outside the signed
64-bit range. -/
def parseInt64 (l : List Char) : Except RespErr Int :=
  let p := splitSign l
  if p.2 = [] then .error .errScan
  else if ¬ (p.2.all Char.isDigit) then .error .errScan
  else
    let n : Nat := digitsToNat p.2
    if p.1 then
      if n ≤ 2 ^ 63 then .ok (-(n : Int)) else .error .errScan
    else
      if n ≤ 2 ^ 63 - 1 then .ok (n : Int) else .error .errScan

/-- Int returns the value of a RESP as an integer. -/
def RESP.Int (r0 : RESP) : Except RespErr Int × RESP :=
  let p := r0.rtype
  if p.1 = .IntegerType then
    match scanLine p.2.r with
    | some line => (parseInt64 line, { p.2 with r := [], redisType := .UnknownType })
    | none => (.error .errScan, { p.2 with r := [], redisType := .UnknownType })
  else (.error .errInvalidType, p.2)

/-- Modelled from the spec: `swio.ForkReader(r, n)` (an external collaborator, §4.2
Bounded Byte Forwarder) splits the stream at byte n — the first returned reader
yields the first n bytes, the second yields the remainder. -/
def forkReader (s : List Char) (n : Nat) : List Char × List Char := (s.take n, s.drop n)

/-- The ffReader state of resp/fastForward.go. `head` is the shared underlying
reader (`raw` and the LimitReader `r` both consume it), `limN` is the
LimitReader's remaining allowance. The cursor field `n` is not carried: ffReader
has a value receiver, so each Read call starts from the copy's zero cursor, and
only this call's count is compared against `length`. -/
structure FfReader where
  head : List Char
  limN : Nat
  tailN : Nat
  lengthI : Int
deriving DecidableEq, Repr

/-- fastForwardReaderTail wraps the forked head region. -/
def fastForwardReaderTail (r : List Char) (length skipTail : Int) : FfReader :=
  { head := r, limN := length.toNat, tailN := skipTail.toNat, lengthI := length }

/-- One ffReader.Read call with a buffer of k bytes: read through the LimitReader,
and if this call's byte count reaches `length`, additionally drain `tailN` bytes
from the raw reader. -/
def FfReader.read (f : FfReader) (k : Nat) : List Char × FfReader :=
  let c := min k f.limN
  let out := f.head.take c
  let m := out.length
  let head1 := f.head.drop m
  let head2 := if (m : Int) ≥ f.lengthI then head1.drop f.tailN else head1
  (out, { f with head := head2, limN := f.limN - m })

/-- Successive Read calls with the given buffer sizes; returns the concatenation
of everything the consumer saw. -/
def FfReader.readMany (f : FfReader) : List Nat → List Char × FfReader
  | [] => ([], f)
  | k :: ks =>
    let o := f.read k
    let os := o.2.readMany ks
    (o.1 ++ os.1, os.2)

/-- The bytes the reader will expose to a consumer who reads it to exhaustion. -/
def FfReader.contents (f : FfReader) : List Char := f.head.take f.limN

/-- BulkString returns the value of a RESP as a reader. -/
def RESP.BulkString (r0 : RESP) : Except RespErr FfReader × RESP :=
  let p := r0.rtype
  if p.1 = .BulkStringType then
    let ht := forkReader p.2.r (p.2.length + 2).toNat
    (.ok (fastForwardReaderTail ht.1 p.2.length 2),
     { p.2 with r := ht.2, redisType := .UnknownType })
  else (.error .errInvalidType, p.2)

/-- The producer goroutine of RESP.Array, run to completion (sequential-completion
schedule): decode `l` successive elements from the shared stream, eagerly
materializing each self-contained element exactly as the source branches do, and
return the published elements together with the final position of the shared
stream. The SimpleString and BulkString branches restore the shared stream
(`r.r = elem.r` in the source); the Error and Integer branches do not — their
bufio.Scanner drains the shared in-memory stream, so it is left empty. A nested
Array element is published unmaterialized over the shared stream (the source
defers it via lastWasArray while the loop races ahead); its published `r` is the
current stream value here. MultiReader(bs, CRLF) is modelled by the forked
reader's exposable bytes followed by CRLF. -/
def produceElems : Nat → List Char → List RESP × List Char
  | 0, shared => ([], shared)
  | l + 1, shared =>
    let elem0 := RESP.new shared
    let tp := elem0.rtype
    let step : RESP × List Char :=
      match tp.1 with
      | .SimpleStringType =>
        let se := tp.2.SimpleString
        let s := match se.1 with | .ok s => s | .error _ => []
        ({ se.2 with r := s ++ crlf, redisType := .SimpleStringType }, se.2.r)
      | .ErrorType =>
        let ee := tp.2.Error
        let msg := match ee.1 with | .ok m => m | .error _ => []
        ({ ee.2 with r := msg, redisType := .ErrorType }, ee.2.r)
      | .IntegerType =>
        let ie := tp.2.Int
        let i := match ie.1 with | .ok i => i | .error _ => 0
        ({ ie.2 with r := intChars i, redisType := .IntegerType }, ie.2.r)
      | .NullType =>
        ({ tp.2 with redisType := .NullType }, tp.2.r)
      | .BulkStringType =>
        let be := tp.2.BulkString
        match be.1 with
        | .ok ff => ({ be.2 with r := ff.contents ++ crlf, redisType := .BulkStringType }, be.2.r)
        | .error _ => (be.2, be.2.r)
      | _ => (tp.2, tp.2.r)
    let rest := produceElems l step.2
    (step.1 :: rest.1, rest.2)

/-- Array contains a sequence of RESP items (struct Array of the source; named
RArray because Lean's core already has Array). The channel `c` is modelled by the
list of published-but-unreceived values plus a closed flag. -/
structure RArray where
  length : Nat
  chanPending : List RESP
  chanClosed : Bool
  cached : List RESP
deriving DecidableEq, Repr

/-- Next returns the next RESP item in the Array: from the cache if nonempty,
otherwise a channel receive. The outer Option is none when the receive would
block (open empty channel); a receive on a closed drained channel returns the
nil element immediately (inner none). -/
def RArray.Next (a : RArray) : Option (Option RESP) × RArray :=
  match a.cached with
  | ret :: rest => (some (some ret), { a with cached := rest })
  | [] =>
    match a.chanPending with
    | elem :: rest => (some (some elem), { a with chanPending := rest })
    | [] => if a.chanClosed then (some none, a) else (none, a)

/-- cache reads all remaining elements off the channel and stores them in memory
(meaningful once the producer has closed the channel). -/
def RArray.cache (a : RArray) : RArray :=
  { a with cached := a.cached ++ a.chanPending, chanPending := [] }

/-- Len returns the total number of items in the Array. -/
def RArray.Len (a : RArray) : Nat := a.length

/-- Array returns the stream of successive elements of the RESP array. The
producer has published exactly `length` elements and closed the channel
(sequential-completion schedule); the parent stream ends wherever the producer
left it. -/
def RESP.Array (r0 : RESP) : Except RespErr RArray × RESP :=
  let p := r0.rtype
  if p.1 = .ArrayType then
    let pe := produceElems p.2.length.toNat p.2.r
    (.ok ⟨p.2.length.toNat, pe.1, true, []⟩,
     { p.2 with r := pe.2, redisType := .UnknownType })
  else (.error .errInvalidType, p.2)

/-- Condition for a payload to survive the simple-string scan: it contains no
CRLF pair (the scan's terminator). -/
def noCRLF : List Char → Bool
  | [] => true
  | [_] => true
  | c :: d :: rest => if c = '\r' ∧ d = '\n' then false else noCRLF (d :: rest)

/-- Modelled from the spec, §6 wire format: a SimpleString is a plus sign, the
payload and CRLF. -/
def encodeSimpleString (s : List Char) : List Char := '+' :: (s ++ crlf)

/-- Modelled from the spec, §6 wire format: an Error is a minus sign, the payload
and CRLF. -/
def encodeError (s : List Char) : List Char := '-' :: (s ++ crlf)

/-- Modelled from the spec, §6 wire format: an Integer is a colon, the signed
decimal payload and CRLF. -/
def encodeInteger (i : Int) : List Char := ':' :: (intChars i ++ crlf)

/-- Modelled from the spec, §6 wire format: a BulkString is a dollar sign, the
decimal byte length, CRLF, the raw payload bytes and CRLF. -/
def encodeBulkString (b : List Char) : List Char :=
  '$' :: (natChars b.length ++ '\r' :: '\n' :: (b ++ crlf))

/-- A non-composite array element payload: a simple string or a bulk string. -/
inductive FlatVal where
  | str (s : List Char)
  | bulk (b : List Char)
deriving DecidableEq, Repr

/-- Wire encoding of one flat array element. -/
def encodeFlat : FlatVal → List Char
  | .str s => encodeSimpleString s
  | .bulk b => encodeBulkString b

/-- Payload validity: a simple-string payload must not contain the CRLF
terminator. -/
def flatValid : FlatVal → Bool
  | .str s => noCRLF s
  | .bulk _ => true

/-- Modelled from the spec, §6 wire format: an Array is an asterisk, the decimal
element count, CRLF and the concatenated element encodings. -/
def encodeArray (es : List FlatVal) : List Char :=
  '*' :: (natChars es.length ++ '\r' :: '\n' :: (es.map encodeFlat).flatten)

/-- The self-contained element the array producer publishes for a flat value:
payload plus trailing CRLF, with the classification cached. -/
def materializeFlat : FlatVal → RESP
  | .str s => ⟨s ++ crlf, 0, .SimpleStringType⟩
  | .bulk b => ⟨b ++ crlf, (b.length : Int), .BulkStringType⟩

/-- Read one published element the way the round-trip consumer does: by the
accessor of its classified type, reading a bulk reader to exhaustion. -/
def extractFlat (e : RESP) : Option FlatVal :=
  match e.redisType with
  | .SimpleStringType =>
    match e.SimpleString with
    | (.ok s, _) => some (.str s)
    | (.error _, _) => none
  | .BulkStringType =>
    match e.BulkString with
    | (.ok f, _) => some (.bulk (f.read f.limN).1)
    | (.error _, _) => none
  | _ => none

/-- Consume n elements via Next, extracting each. -/
def nextExtract : Nat → RArray → List (Option FlatVal)
  | 0, _ => []
  | n + 1, a =>
    let o := a.Next
    match o.1 with
    | some (some e) => extractFlat e :: nextExtract n o.2
    | _ => none :: nextExtract n o.2

/-- Conn represents an open connection to a redis server, restricted to the
write path the command claims need: the bytes placed on the transport, the
in-flight command counter, and the command-encode mutex (true while held). -/
structure Conn where
  wire : List Char
  openCommands : Int
  commandLock : Bool
deriving DecidableEq, Repr

/-- Cmd is a command that is currently being written to a connection. -/
structure Cmd where
  conn : Conn
deriving DecidableEq, Repr

/-- The frame fmt.Fprintf with format dollar-length-CRLF-payload-CRLF writes for
one bulk-string argument. -/
def bulkFrame (arg : List Char) : List Char :=
  '$' :: (natChars arg.length ++ crlf ++ arg ++ crlf)

/-- WriteArgumentString writes a static string to the connection as a command
argument. -/
def Cmd.WriteArgumentString (c : Cmd) (arg : List Char) : Cmd :=
  ⟨{ c.conn with wire := c.conn.wire ++ bulkFrame arg }⟩

/-- Command initializes a command with the given number of arguments: it takes
the encode lock (none models the caller blocking while another command is
open), increments the open-command counter, writes the array header for args+1
elements, and writes the command name as the first bulk string. -/
def Conn.Command (c : Conn) (command : List Char) (args : Int) : Option Cmd :=
  if c.commandLock then none
  else
    let c1 : Conn := { wire := c.wire ++ '*' :: (intChars (args + 1) ++ crlf),
                       openCommands := c.openCommands + 1, commandLock := true }
    some (Cmd.WriteArgumentString ⟨c1⟩ command)

/-- Close closes the command with a CRLF; the deferred unlock releases the
encode lock on the success path and on the write-failure path alike. -/
def Cmd.Close (c : Cmd) (writeFails : Bool) : Option RespErr × Conn :=
  if writeFails then (some .errWrite, { c.conn with commandLock := false })
  else (none, { c.conn with wire := c.conn.wire ++ crlf, commandLock := false })

/-- Open a command, write every argument with WriteArgumentString, and Close,
as the CLI's scanCommand does. -/
def Conn.runCommand (c : Conn) (command : List Char) (args : List (List Char)) : Option Conn :=
  match c.Command command (args.length : Int) with
  | none => none
  | some cmd => some ((args.foldl Cmd.WriteArgumentString cmd).Close false).2

/-- Modelled from the spec, §6 wire format: commands are sent as an Array of
BulkStrings — the command name followed by each argument, each individually
length-prefixed. -/
def respCommandEncoding (command : List Char) (args : List (List Char)) : List Char :=
  '*' :: (natChars (args.length + 1) ++ crlf) ++ bulkFrame command ++ (args.map bulkFrame).flatten

/-- Pool configuration relevant to the idle cap: MaxIdle indicates how many
idle connections should be kept, zero preserving all. -/
structure Pool where
  MaxIdle : Int
deriving DecidableEq, Repr

/-- The pool's idle state: the number of connections actually held inside the
sync.Pool container, and the idle counter the source maintains next to it. A
garbage collection can discard a pooled connection without the counter
noticing, so the two are tracked separately. -/
structure PoolSt where
  items : Nat
  idle : Int
deriving DecidableEq, Repr

/-- put either closes the connection's transport (when a nonzero MaxIdle cap
has been reached) or returns it to the pool and increments the idle counter;
the Bool reports destruction. -/
def Pool.put (p : Pool) (st : PoolSt) : PoolSt × Bool :=
  if p.MaxIdle ≠ 0 ∧ st.idle ≥ p.MaxIdle then (st, true)
  else ({ items := st.items + 1, idle := st.idle + 1 }, false)

/-- Conn takes an idle connection when the container yields one, decrementing
the counter; when the container is empty it dials a new connection, leaving
the idle state untouched. -/
def Pool.Conn (_p : Pool) (st : PoolSt) : PoolSt :=
  match st.items with
  | 0 => st
  | Nat.succ n => { items := n, idle := st.idle - 1 }

inductive PoolOp where
  | conn
  | put
  | gcDrop
deriving DecidableEq, Repr

/-- One pool event: a Conn() call, a put() release, or the sync.Pool dropping
an idle item during garbage collection. -/
def poolStep (p : Pool) (st : PoolSt) : PoolOp → PoolSt
  | .conn => p.Conn st
  | .put => (p.put st).1
  | .gcDrop => { st with items := st.items - 1 }

def runPool (p : Pool) : List PoolOp → PoolSt → PoolSt
  | [], st => st
  | op :: ops, st => runPool p ops (poolStep p st op)

/-- The pool invariant: the container never holds more items than the counter
records, and with a positive cap the counter never exceeds it. -/
def poolInv (p : Pool) (st : PoolSt) : Prop :=
  (st.items : Int) ≤ st.idle ∧ (0 < p.MaxIdle → st.idle ≤ p.MaxIdle)

inductive ArrOp where
  | next
  | flush
deriving DecidableEq, Repr

/-- Run a mix of consumer operations on an Array — Next() calls and cache
flushes (the flush a later Type() on the parent performs via lastWasArray) —
counting the elements delivered (non-nil Next results). -/
def runArr : List ArrOp → RArray → Nat × RArray
  | [], a => (0, a)
  | .next :: ops, a =>
    match a.Next with
    | (some (some _), a1) =>
      let r := runArr ops a1
      (r.1 + 1, r.2)
    | (_, a1) => runArr ops a1
  | .flush :: ops, a => runArr ops a.cache

/-- Number of elements still queued for the consumer. -/
def arrSize (a : RArray) : Nat := a.cached.length + a.chanPending.length

/-- State of the subscription dispatcher and one Unsubscribe caller, as an
interleaving system. `registry` is the flattened subscription map: the pairs
(channel, subscriber queue) currently registered (sub.subscriptions with each
subscription's subscriber set). `inflight` is the dispatcher's current message
delivery: the message's channel and the snapshot of subscribers still to be
pushed to, taken under the read lock in sub.receive. `writerHeld` is the write
side of subscriptionsLock, `unsubbing` the pending Unsubscribe call's
arguments. `retOn` lists the (channel, queue) pairs whose Unsubscribe call has
returned, and `badPush` records whether any push ever went to a queue after
its Unsubscribe had returned — the event the claim rules out. Channels and
queues are identified by numbers; message payloads are irrelevant to the
claim and not carried. -/
structure PsState where
  registry : List (Nat × Nat)
  inflight : Option (Nat × List Nat)
  writerHeld : Bool
  unsubbing : Option (Nat × Nat)
  retOn : List (Nat × Nat)
  badPush : Bool
deriving DecidableEq, Repr

/-- The subscriber queues registered for channel c. -/
def subsOf (c : Nat) (reg : List (Nat × Nat)) : List Nat :=
  (reg.filter (fun q => decide (q.1 = c))).map Prod.snd

/-- Events of the dispatcher/unsubscriber interleaving.

  rlock c — sub.receive classifies a message frame for channel c: it acquires
    the read lock and iterates the channel's subscriber set (the snapshot);
    requires the write lock free and no delivery already in flight (the read
    loop is a single task).
  push q — `ch <- message` to one subscriber of the snapshot.
  runlock — the deferred RUnlock once every subscriber has been pushed.
  wlock c q — Conn.Unsubscribe acquires the write lock (blocking while any
    reader holds it) and deletes q from c's subscriber set.
  wunlock — the deferred Unlock; Unsubscribe returns at this point. -/
inductive PsEvent where
  | rlock (c : Nat)
  | push (q : Nat)
  | runlock
  | wlock (c q : Nat)
  | wunlock
deriving DecidableEq, Repr

/-- One enabled transition; none when the event is not enabled in this state
(its Go counterpart would be blocked or impossible). -/
def psStep (s : PsState) (e : PsEvent) : Option PsState :=
  match e with
  | .rlock c =>
    if s.writerHeld ∨ s.inflight.isSome then none
    else some { s with inflight := some (c, subsOf c s.registry) }
  | .push q =>
    match s.inflight with
    | some (c, subs) =>
      if q ∈ subs then
        some { s with inflight := some (c, subs.erase q),
                      badPush := s.badPush ∨ ((c, q) ∈ s.retOn) }
      else none
    | none => none
  | .runlock =>
    match s.inflight with
    | some (_, []) => some { s with inflight := none }
    | _ => none
  | .wlock c q =>
    if s.writerHeld ∨ s.inflight.isSome ∨ s.unsubbing.isSome then none
    else some { s with writerHeld := true, unsubbing := some (c, q),
                       registry := s.registry.filter (fun p => decide (¬ p = (c, q))) }
  | .wunlock =>
    match s.unsubbing with
    | some cq =>
      if s.writerHeld then
        some { s with writerHeld := false, unsubbing := none, retOn := cq :: s.retOn }
      else none
    | none => none

/-- Run a trace of events; none as soon as an event is not enabled. -/
def psRun (s : PsState) : List PsEvent → Option PsState
  | [] => some s
  | e :: tr =>
    match psStep s e with
    | some s1 => psRun s1 tr
    | none => none

/-- The dispatcher starts with a registry, no delivery in flight, the lock
free, and no unsubscribe returned. -/
def psInit (reg : List (Nat × Nat)) : PsState := ⟨reg, none, false, none, [], false⟩

/-- The inductive invariant: no bad push has happened; returned unsubscriptions
are gone from the registry; the in-flight snapshot never contains a pair that
has already returned from Unsubscribe; the write lock excludes deliveries; and
a pending unsubscribe target is already deleted. -/
def psInv (s : PsState) : Prop :=
  s.badPush = false ∧
  (∀ cq ∈ s.retOn, cq ∉ s.registry) ∧
  (∀ c subs, s.inflight = some (c, subs) → ∀ q ∈ subs, (c, q) ∉ s.retOn) ∧
  (s.writerHeld = true → s.inflight = none) ∧
  (∀ cq, s.unsubbing = some cq → cq ∉ s.registry)

theorem digitVal_digitChar {d : Nat} (h : d < 10) : digitVal (digitChar d) = d := by
  interval_cases d <;> decide

theorem isDigit_digitChar {d : Nat} (h : d < 10) : (digitChar d).isDigit = true := by
  interval_cases d <;> decide

theorem natCharsAux_eq (fuel n : Nat) (h : n < fuel) :
    natCharsAux fuel n = natChars n := by
  induction fuel using Nat.strong_induction_on generalizing n with
  | _ fuel ih =>
    match fuel with
    | 0 => omega
    | fuel + 1 =>
      by_cases h10 : n < 10
      · show (if n < 10 then [digitChar n] else _) = natChars n
        rw [natChars]
        show _ = (if n < 10 then [digitChar n] else _)
        simp [h10]
      · have hd : n / 10 < n := Nat.div_lt_self (by omega) (by omega)
        show (if n < 10 then [digitChar n] else natCharsAux fuel (n / 10) ++ [digitChar (n % 10)]) = natChars n
        rw [natChars]
        show _ = (if n < 10 then [digitChar n] else natCharsAux n (n / 10) ++ [digitChar (n % 10)])
        simp only [h10, if_false]
        rw [ih fuel (by omega) (n / 10) (by omega), ih n (by omega) (n / 10) hd]

theorem natChars_succ_ge (n : Nat) (h : 10 ≤ n) :
    natChars n = natChars (n / 10) ++ [digitChar (n % 10)] := by
  have h10 : ¬ n < 10 := Nat.not_lt.mpr h
  rw [natChars]
  show (if n < 10 then [digitChar n] else natCharsAux n (n / 10) ++ [digitChar (n % 10)]) = _
  simp only [h10, if_false]
  rw [natCharsAux_eq n (n / 10) (Nat.div_lt_self (by omega) (by omega))]

theorem natChars_lt (n : Nat) (h : n < 10) : natChars n = [digitChar n] := by
  rw [natChars]
  show (if n < 10 then [digitChar n] else _) = _
  simp [h]

theorem digitsToNat_append (l1 l2 : List Char) :
    digitsToNat (l1 ++ l2) = (l2.foldl (fun a c => a * 10 + digitVal c) (digitsToNat l1)) := by
  simp [digitsToNat, List.foldl_append]

theorem digitsToNat_natChars (n : Nat) : digitsToNat (natChars n) = n := by
  induction n using Nat.strong_induction_on with
  | _ n ih =>
    by_cases h : n < 10
    · rw [natChars_lt n h]
      simp [digitsToNat, digitVal_digitChar h]
    · have h10 : 10 ≤ n := Nat.le_of_not_lt h
      rw [natChars_succ_ge n h10, digitsToNat_append]
      have := ih (n / 10) (Nat.div_lt_self (by omega) (by omega))
      simp [natChars] at this
      simp [List.foldl, natChars] at *
      rw [this, digitVal_digitChar (Nat.mod_lt n (by omega))]
      omega

theorem natChars_all_digits (n : Nat) : ∀ c ∈ natChars n, c.isDigit = true := by
  induction n using Nat.strong_induction_on with
  | _ n ih =>
    by_cases h : n < 10
    · rw [natChars_lt n h]
      intro c hc
      simp at hc
      subst hc
      exact isDigit_digitChar h
    · have h10 : 10 ≤ n := Nat.le_of_not_lt h
      rw [natChars_succ_ge n h10]
      intro c hc
      rcases List.mem_append.mp hc with h1 | h2
      · exact ih (n / 10) (Nat.div_lt_self (by omega) (by omega)) c h1
      · simp at h2
        subst h2
        exact isDigit_digitChar (Nat.mod_lt n (by omega))

theorem natChars_ne_nil (n : Nat) : natChars n ≠ [] := by
  by_cases h : n < 10
  · rw [natChars_lt n h]; simp
  · rw [natChars_succ_ge n (Nat.le_of_not_lt h)]; simp

theorem takeWhile_append_all {p : Char → Bool} (l1 l2 : List Char)
    (h1 : ∀ c ∈ l1, p c = true) (h2 : ∀ x l, l2 = x :: l → p x = false) :
    (l1 ++ l2).takeWhile p = l1 ∧ (l1 ++ l2).dropWhile p = l2 := by
  induction l1 with
  | nil =>
    simp only [List.nil_append]
    match l2 with
    | [] => simp
    | x :: l =>
      have := h2 x l rfl
      simp [List.takeWhile, List.dropWhile, this]
  | cons c l1 ih =>
    have hc : p c = true := h1 c (by simp)
    have ihh := ih (fun d hd => h1 d (by simp [hd]))
    simp [List.takeWhile, List.dropWhile, hc, ihh.1, ihh.2]

theorem noCRLF_cons (c : Char) (l : List Char) (h : noCRLF (c :: l) = true) :
    noCRLF l = true := by
  cases l with
  | nil => rfl
  | cons d l2 =>
    rw [noCRLF] at h
    by_cases hcd : c = '\r' ∧ d = '\n'
    · simp [hcd] at h
    · simpa [hcd] using h

theorem noCRLF_cr (d : Char) (l : List Char) (h : noCRLF ('\r' :: d :: l) = true) :
    ¬ d = '\n' := by
  rw [noCRLF] at h
  by_cases hd : d = '\n'
  · simp [hd] at h
  · exact hd

theorem simpleScan_expect (c : Char) (l : List Char) (hc : ¬ c = '\n') :
    simpleScan true (c :: l) =
      (simpleScan false (c :: l)).map (fun p => ('\r' :: p.1, p.2)) := by
  rw [simpleScan, simpleScan]
  simp [hc]

theorem simpleScan_spec (P rest : List Char) (h : noCRLF P = true) :
    simpleScan false (P ++ '\r' :: '\n' :: rest) = some (P, rest) := by
  induction P with
  | nil => simp [simpleScan]
  | cons c P2 ih =>
    by_cases hc : c = '\r'
    · subst hc
      rw [List.cons_append, simpleScan]
      cases P2 with
      | nil => simp [simpleScan]
      | cons d P3 =>
        have hd : ¬ d = '\n' := noCRLF_cr d P3 h
        have hP2 : noCRLF (d :: P3) = true := noCRLF_cons _ _ h
        rw [List.cons_append, simpleScan_expect d _ hd, ← List.cons_append, ih hP2]
        simp
    · have hP2 : noCRLF P2 = true := noCRLF_cons _ _ h
      rw [List.cons_append, simpleScan]
      simp [hc, ih hP2]

theorem isDigit_ne_dash {c : Char} (h : c.isDigit = true) : ¬ c = '-' := by
  intro e; subst e; exact absurd h (by decide)

theorem isDigit_ne_plus {c : Char} (h : c.isDigit = true) : ¬ c = '+' := by
  intro e; subst e; exact absurd h (by decide)

theorem isDigit_ne_lf {c : Char} (h : c.isDigit = true) : ¬ c = '\n' := by
  intro e; subst e; exact absurd h (by decide)

theorem splitSign_digit {c : Char} (rest : List Char) (h : c.isDigit = true) :
    splitSign (c :: rest) = (false, c :: rest) := by
  rw [splitSign]
  simp [isDigit_ne_dash h, isDigit_ne_plus h]

theorem splitSign_all_digits (l rest : List Char) (hl : l ≠ [])
    (h : ∀ c ∈ l, c.isDigit = true) : splitSign (l ++ rest) = (false, l ++ rest) := by
  obtain ⟨d, ds, hcons⟩ := List.exists_cons_of_ne_nil hl
  have hdd : d.isDigit = true := by
    apply h; rw [hcons]; simp
  rw [hcons, List.cons_append, splitSign_digit _ hdd, ← List.cons_append]

theorem extractLength_natChars (n : Nat) (rest : List Char) :
    extractLength (natChars n ++ '\r' :: '\n' :: rest) = ((n : Int), rest) := by
  have htw := takeWhile_append_all (p := Char.isDigit) (natChars n) ('\r' :: '\n' :: rest)
    (natChars_all_digits n) (by intro x l hx; cases hx; decide)
  have hsplit := splitSign_all_digits (natChars n) ('\r' :: '\n' :: rest)
    (natChars_ne_nil n) (natChars_all_digits n)
  simp only [extractLength, hsplit, htw.1, htw.2]
  simp [consumeCRLF, digitsToNat_natChars]

theorem takeWhile_noLF (l rest : List Char) (h : ∀ c ∈ l, ¬ c = '\n') :
    (l ++ '\r' :: '\n' :: rest).takeWhile (fun c => ¬ c = '\n') = l ++ ['\r'] := by
  have : l ++ '\r' :: '\n' :: rest = (l ++ ['\r']) ++ '\n' :: rest := by simp
  rw [this]
  refine (takeWhile_append_all (l ++ ['\r']) ('\n' :: rest) ?_ ?_).1
  · intro c hc
    rcases List.mem_append.mp hc with h1 | h2
    · simp [h c h1]
    · simp at h2; subst h2; decide
  · intro x l2 hx; cases hx; decide

theorem scanLine_noLF (l rest : List Char) (h : ∀ c ∈ l, ¬ c = '\n') :
    scanLine (l ++ '\r' :: '\n' :: rest) = some l := by
  rw [scanLine]
  have hne : ¬ (l ++ '\r' :: '\n' :: rest = []) := by simp
  rw [if_neg hne, takeWhile_noLF l rest h, dropTrailingCR]
  simp [List.getLast?_concat, List.dropLast_concat]

theorem intChars_noLF (i : Int) : ∀ c ∈ intChars i, ¬ c = '\n' := by
  intro c hc
  rw [intChars] at hc
  by_cases hneg : i < 0
  · simp only [hneg, if_true] at hc
    rcases List.mem_cons.mp hc with h1 | h2
    · subst h1; decide
    · exact isDigit_ne_lf (natChars_all_digits _ c h2)
  · simp only [hneg, if_false] at hc
    exact isDigit_ne_lf (natChars_all_digits _ c hc)

theorem parseInt64_intChars (i : Int) (hlo : -(2 ^ 63) ≤ i) (hhi : i ≤ 2 ^ 63 - 1) :
    parseInt64 (intChars i) = .ok i := by
  by_cases hneg : i < 0
  · have he : intChars i = '-' :: natChars (-i).toNat := by rw [intChars, if_pos hneg]
    have hsplit : splitSign (intChars i) = (true, natChars (-i).toNat) := by
      rw [he, splitSign]; simp
    have hne : natChars (-i).toNat ≠ [] := natChars_ne_nil _
    have hall : (natChars (-i).toNat).all Char.isDigit = true :=
      List.all_eq_true.mpr (fun c hc => natChars_all_digits _ c hc)
    have hbound : (-i).toNat ≤ 2 ^ 63 := by omega
    simp only [parseInt64, hsplit, hne, if_false, hall, not_true, digitsToNat_natChars]
    rw [if_pos trivial, if_pos hbound]
    congr 1
    omega
  · have hge : 0 ≤ i := by omega
    have he : intChars i = natChars i.toNat := by rw [intChars, if_neg hneg]
    have hsplit : splitSign (intChars i) = (false, natChars i.toNat) := by
      rw [he]
      have := splitSign_all_digits (natChars i.toNat) [] (natChars_ne_nil _)
        (natChars_all_digits _)
      simpa using this
    have hne : natChars i.toNat ≠ [] := natChars_ne_nil _
    have hall : (natChars i.toNat).all Char.isDigit = true :=
      List.all_eq_true.mpr (fun c hc => natChars_all_digits _ c hc)
    have hbound : i.toNat ≤ 2 ^ 63 - 1 := by omega
    simp only [parseInt64, hsplit, hne, if_false, hall, not_true, digitsToNat_natChars]
    rw [if_neg (by simp), if_pos hbound]
    congr 1
    omega

theorem rtype_plus (s : List Char) :
    (RESP.new ('+' :: s)).rtype = (.SimpleStringType, ⟨s, 0, .SimpleStringType⟩) := rfl

theorem rtype_dash (s : List Char) :
    (RESP.new ('-' :: s)).rtype = (.ErrorType, ⟨s, 0, .ErrorType⟩) := rfl

theorem rtype_colon (s : List Char) :
    (RESP.new (':' :: s)).rtype = (.IntegerType, ⟨s, 0, .IntegerType⟩) := rfl

theorem rtype_dollar (s : List Char) :
    (RESP.new ('$' :: s)).rtype =
      (if (extractLength s).1 = -1
       then (.NullType, ⟨(extractLength s).2, (extractLength s).1, .UnknownType⟩)
       else (.BulkStringType, ⟨(extractLength s).2, (extractLength s).1, .BulkStringType⟩)) := by
  show (let el := extractLength s;
        if el.1 = -1 then ((.NullType : RedisType), (⟨el.2, el.1, .UnknownType⟩ : RESP))
        else (.BulkStringType, ⟨el.2, el.1, .BulkStringType⟩)) = _
  simp only []

theorem rtype_asterisk (s : List Char) :
    (RESP.new ('*' :: s)).rtype =
      (if (extractLength s).1 = -1
       then (.NullType, ⟨(extractLength s).2, (extractLength s).1, .UnknownType⟩)
       else (.ArrayType, ⟨(extractLength s).2, (extractLength s).1, .ArrayType⟩)) := by
  show (let el := extractLength s;
        if el.1 = -1 then ((.NullType : RedisType), (⟨el.2, el.1, .UnknownType⟩ : RESP))
        else (.ArrayType, ⟨el.2, el.1, .ArrayType⟩)) = _
  simp only []

theorem rtype_bulk (n : Nat) (rest : List Char) :
    (RESP.new ('$' :: (natChars n ++ '\r' :: '\n' :: rest))).rtype
      = (.BulkStringType, ⟨rest, (n : Int), .BulkStringType⟩) := by
  have hne : ¬ ((n : Int) = -1) := by omega
  rw [rtype_dollar, extractLength_natChars]
  simp [hne]

theorem rtype_star (n : Nat) (rest : List Char) :
    (RESP.new ('*' :: (natChars n ++ '\r' :: '\n' :: rest))).rtype
      = (.ArrayType, ⟨rest, (n : Int), .ArrayType⟩) := by
  have hne : ¬ ((n : Int) = -1) := by omega
  rw [rtype_asterisk, extractLength_natChars]
  simp [hne]

theorem rtype_cached (r : RESP) (h : ¬ r.redisType = .UnknownType) :
    r.rtype = (r.redisType, r) := by
  rw [RESP.rtype, if_neg h]

theorem simpleString_eval (r0 r1 : RESP) (s rest : List Char)
    (ht : r0.rtype = (.SimpleStringType, r1)) (hr : r1.r = s ++ '\r' :: '\n' :: rest)
    (h : noCRLF s = true) :
    r0.SimpleString = (.ok s, { r1 with r := rest, redisType := .UnknownType }) := by
  simp only [RESP.SimpleString, ht, hr, simpleScan_spec s rest h]
  rfl

theorem error_eval (r0 r1 : RESP) (s rest : List Char)
    (ht : r0.rtype = (.ErrorType, r1)) (hr : r1.r = s ++ '\r' :: '\n' :: rest)
    (h : ∀ c ∈ s, ¬ c = '\n') :
    r0.Error = (.ok s, { r1 with r := [], redisType := .UnknownType }) := by
  simp only [RESP.Error, ht, hr, scanLine_noLF s rest h]
  rfl

theorem int_eval (r0 r1 : RESP) (l rest : List Char)
    (ht : r0.rtype = (.IntegerType, r1)) (hr : r1.r = l ++ '\r' :: '\n' :: rest)
    (h : ∀ c ∈ l, ¬ c = '\n') :
    r0.Int = (parseInt64 l, { r1 with r := [], redisType := .UnknownType }) := by
  simp only [RESP.Int, ht, hr, scanLine_noLF l rest h]
  rfl

theorem bulk_eval (r0 r1 : RESP) (ht : r0.rtype = (.BulkStringType, r1)) :
    r0.BulkString =
      (.ok (fastForwardReaderTail (r1.r.take (r1.length + 2).toNat) r1.length 2),
       { r1 with r := r1.r.drop (r1.length + 2).toNat, redisType := .UnknownType }) := by
  simp only [RESP.BulkString, ht, forkReader]
  rfl

theorem readMany_limZero (ks : List Nat) (f : FfReader) (h : f.limN = 0) :
    (f.readMany ks).1 = [] := by
  induction ks generalizing f with
  | nil => rfl
  | cons k ks ih =>
    rw [FfReader.readMany, FfReader.read]
    simp only [h, Nat.min_zero, List.take_zero, List.length_nil, List.nil_append]
    exact ih _ rfl

theorem readMany_spec (ks : List Nat) (Q t2 : List Char) (L : Nat) (hQ : Q.length ≤ L)
    (hsum : Q.length ≤ ks.sum) :
    ((FfReader.mk (Q ++ t2) Q.length 2 (L : Int)).readMany ks).1 = Q := by
  induction ks generalizing Q with
  | nil =>
    simp at hsum
    subst hsum
    rfl
  | cons k ks ih =>
    have hc : min k Q.length ≤ Q.length := Nat.min_le_right _ _
    have htake : (Q ++ t2).take (min k Q.length) = Q.take (min k Q.length) :=
      List.take_append_of_le_length hc
    have hlen : (Q.take (min k Q.length)).length = min k Q.length := by
      rw [List.length_take]
      omega
    have hdrop : (Q ++ t2).drop (min k Q.length) = Q.drop (min k Q.length) ++ t2 :=
      List.drop_append_of_le_length hc
    simp only [FfReader.readMany, FfReader.read, htake, hlen, hdrop]
    by_cases hfire : ((min k Q.length : Nat) : Int) ≥ (L : Int)
    · rw [if_pos hfire]
      have hz : Q.length - min k Q.length = 0 := by omega
      have hminQ : min k Q.length = Q.length := by omega
      rw [hz, readMany_limZero ks _ rfl, hminQ, List.take_length, List.append_nil]
    · rw [if_neg hfire]
      have hsub : Q.length - min k Q.length = (Q.drop (min k Q.length)).length := by
        simp
      have h1 : (Q.drop (min k Q.length)).length ≤ L := by
        simp
        omega
      have h2 : (Q.drop (min k Q.length)).length ≤ ks.sum := by
        simp at hsum ⊢
        omega
      rw [hsub, ih _ h1 h2, List.take_append_drop]

theorem toNat_add_two (n : Nat) : ((n : Int) + 2).toNat = n + 2 := by omega

theorem take_prefix (b t rest : List Char) (h : (b ++ t).length = b.length + t.length) :
    ((b ++ t) ++ rest).take (b.length + t.length) = b ++ t := by
  rw [← h, List.take_left]

theorem drop_prefix (b t rest : List Char) (h : (b ++ t).length = b.length + t.length) :
    ((b ++ t) ++ rest).drop (b.length + t.length) = rest := by
  rw [← h, List.drop_left]

theorem bulk_extract_eval (b rest : List Char) (r0 r1 : RESP)
    (ht : r0.rtype = (.BulkStringType, r1))
    (hr : r1.r = b ++ '\r' :: '\n' :: rest) (hl : r1.length = (b.length : Int)) :
    r0.BulkString =
      (.ok ⟨b ++ crlf, b.length, 2, (b.length : Int)⟩,
       { r1 with r := rest, redisType := .UnknownType }) := by
  rw [bulk_eval r0 r1 ht, hl, toNat_add_two]
  have hsplit : b ++ '\r' :: '\n' :: rest = (b ++ crlf) ++ rest := by simp [crlf]
  have hlen : (b ++ crlf).length = b.length + 2 := by simp [crlf]
  have htk : (b ++ '\r' :: '\n' :: rest).take (b.length + 2) = b ++ crlf := by
    rw [hsplit, ← hlen, List.take_left]
  have hdr : (b ++ '\r' :: '\n' :: rest).drop (b.length + 2) = rest := by
    rw [hsplit, ← hlen, List.drop_left]
  rw [hr, htk, hdr]
  rfl

theorem ffread_contents (b t2 : List Char) :
    ((FfReader.mk (b ++ t2) b.length 2 (b.length : Int)).read b.length).1 = b := by
  rw [FfReader.read]
  simp

theorem extractFlat_materialize (v : FlatVal) (h : flatValid v = true) :
    extractFlat (materializeFlat v) = some v := by
  cases v with
  | str s =>
    have hvalid : noCRLF s = true := h
    rw [materializeFlat, extractFlat]
    have ht := rtype_cached ⟨s ++ crlf, 0, .SimpleStringType⟩ (by simp)
    have he := simpleString_eval _ _ s [] ht (by simp [crlf]) hvalid
    simp only [he]
  | bulk b =>
    rw [materializeFlat, extractFlat]
    have ht := rtype_cached ⟨b ++ crlf, (b.length : Int), .BulkStringType⟩ (by simp)
    have he := bulk_extract_eval b [] _ _ ht (by simp [crlf]) rfl
    simp only [he]
    have := ffread_contents b crlf
    simp only [this]

theorem produceElems_flat (es : List FlatVal) (rest : List Char)
    (h : ∀ v ∈ es, flatValid v = true) :
    produceElems es.length ((es.map encodeFlat).flatten ++ rest)
      = (es.map materializeFlat, rest) := by
  induction es generalizing rest with
  | nil => rfl
  | cons v es ih =>
    have hv : flatValid v = true := h v (by simp)
    have hes : ∀ w ∈ es, flatValid w = true := fun w hw => h w (by simp [hw])
    have hstream : ((v :: es).map encodeFlat).flatten ++ rest
        = encodeFlat v ++ ((es.map encodeFlat).flatten ++ rest) := by
      simp
    rw [hstream]
    show produceElems (es.length + 1) _ = _
    rw [produceElems]
    cases v with
    | str s =>
      have henc : encodeFlat (.str s) ++ ((es.map encodeFlat).flatten ++ rest)
          = '+' :: (s ++ '\r' :: '\n' :: ((es.map encodeFlat).flatten ++ rest)) := by
        simp [encodeFlat, encodeSimpleString, crlf]
      rw [henc]
      have ht := rtype_plus (s ++ '\r' :: '\n' :: ((es.map encodeFlat).flatten ++ rest))
      have htc := rtype_cached ⟨s ++ '\r' :: '\n' :: ((es.map encodeFlat).flatten ++ rest), 0,
        .SimpleStringType⟩ (by simp)
      have he := simpleString_eval _ _ s ((es.map encodeFlat).flatten ++ rest) htc rfl hv
      simp only [ht, he, ih rest hes]
      rfl
    | bulk b =>
      have henc : encodeFlat (.bulk b) ++ ((es.map encodeFlat).flatten ++ rest)
          = '$' :: (natChars b.length ++ '\r' :: '\n' ::
              (b ++ '\r' :: '\n' :: ((es.map encodeFlat).flatten ++ rest))) := by
        simp [encodeFlat, encodeBulkString, crlf]
      rw [henc]
      have ht := rtype_bulk b.length (b ++ '\r' :: '\n' :: ((es.map encodeFlat).flatten ++ rest))
      have htc := rtype_cached ⟨b ++ '\r' :: '\n' :: ((es.map encodeFlat).flatten ++ rest),
        (b.length : Int), .BulkStringType⟩ (by simp)
      have he := bulk_extract_eval b ((es.map encodeFlat).flatten ++ rest) _ _ htc rfl rfl
      simp only [ht, he, ih rest hes]
      simp only [FfReader.contents]
      have hc : (b ++ crlf).take b.length = b := by
        rw [List.take_append_of_le_length (by simp), List.take_length]
      simp only [hc]
      rfl

theorem nextExtract_pending (elems : List RESP) (L : Nat) :
    nextExtract elems.length ⟨L, elems, true, []⟩ = elems.map extractFlat := by
  induction elems with
  | nil => rfl
  | cons e elems ih =>
    show nextExtract (elems.length + 1) _ = _
    rw [nextExtract]
    simp only [RArray.Next]
    rw [ih]
    rfl

theorem rtype_fresh (r : RESP) (h0 : r.redisType = .UnknownType) :
    r.rtype =
      match r.r with
      | [] => (.UnknownType, r)
      | firstByte :: rest =>
        match typeMapLookup firstByte with
        | .BulkStringType =>
          let el := extractLength rest
          if el.1 = -1 then (.NullType, { r with r := el.2, length := el.1 })
          else (.BulkStringType, { r := el.2, length := el.1, redisType := .BulkStringType })
        | .ArrayType =>
          let el := extractLength rest
          if el.1 = -1 then (.NullType, { r with r := el.2, length := el.1 })
          else (.ArrayType, { r := el.2, length := el.1, redisType := .ArrayType })
        | .SimpleStringType => (.SimpleStringType, { r with r := rest, redisType := .SimpleStringType })
        | .IntegerType => (.IntegerType, { r with r := rest, redisType := .IntegerType })
        | .ErrorType => (.ErrorType, { r with r := rest, redisType := .ErrorType })
        | _ => (.InvalidType, { r with r := rest, redisType := .InvalidType }) := by
  rw [RESP.rtype, if_pos h0]

/-- C1 (amended): for the scalar tags, decoding the wire encoding through the
matching accessor returns the payload unchanged — SimpleString for any payload
without a CRLF pair, Error for any payload without LF, Integer for any signed
64-bit value, BulkString for any payload read to exhaustion in any partition of
calls; for Array, the round-trip holds for payloads whose elements are
SimpleStrings or BulkStrings (the producer eagerly materializes these and
restores the shared stream; Integer and Error elements instead lose the stream
remainder to their line scanner — see the counterexample). In particular, the
input "+OK\r\n" has Type SimpleString and SimpleString() returns "OK". -/
theorem claim_C1_roundtrip :
    (∀ s rest, noCRLF s = true →
       ((RESP.new (encodeSimpleString s ++ rest)).rtype.1 = .SimpleStringType ∧
        (RESP.new (encodeSimpleString s ++ rest)).SimpleString
          = (.ok s, ⟨rest, 0, .UnknownType⟩))) ∧
    (∀ s rest, (∀ c ∈ s, ¬ c = '\n') →
       ((RESP.new (encodeError s ++ rest)).Error).1 = .ok s) ∧
    (∀ i rest, -(2 ^ 63) ≤ i → i ≤ 2 ^ 63 - 1 →
       ((RESP.new (encodeInteger i ++ rest)).Int).1 = .ok i) ∧
    (∀ b rest ks, b.length ≤ ks.sum →
       (RESP.new (encodeBulkString b ++ rest)).BulkString
          = (.ok ⟨b ++ crlf, b.length, 2, (b.length : Int)⟩,
             ⟨rest, (b.length : Int), .UnknownType⟩) ∧
       ((FfReader.mk (b ++ crlf) b.length 2 (b.length : Int)).readMany ks).1 = b) ∧
    (∀ es rest, (∀ v ∈ es, flatValid v = true) →
       (RESP.new (encodeArray es ++ rest)).Array
          = (.ok ⟨es.length, es.map materializeFlat, true, []⟩,
             ⟨rest, (es.length : Int), .UnknownType⟩) ∧
       nextExtract es.length ⟨es.length, es.map materializeFlat, true, []⟩ = es.map some) ∧
    ((RESP.new ("+OK\r\n".toList)).rtype.1 = .SimpleStringType ∧
     ((RESP.new ("+OK\r\n".toList)).SimpleString).1 = .ok ("OK".toList)) := by
  refine ⟨?_, ?_, ?_, ?_, ?_, by decide⟩
  · intro s rest h
    have hform : encodeSimpleString s ++ rest = '+' :: (s ++ '\r' :: '\n' :: rest) := by
      simp [encodeSimpleString, crlf]
    rw [hform, rtype_plus]
    refine ⟨rfl, ?_⟩
    rw [simpleString_eval _ _ s rest (rtype_plus _) rfl h]
  · intro s rest h
    have hform : encodeError s ++ rest = '-' :: (s ++ '\r' :: '\n' :: rest) := by
      simp [encodeError, crlf]
    rw [hform, error_eval _ _ s rest (rtype_dash _) rfl h]
  · intro i rest hlo hhi
    have hform : encodeInteger i ++ rest = ':' :: (intChars i ++ '\r' :: '\n' :: rest) := by
      simp [encodeInteger, crlf]
    rw [hform, int_eval _ _ (intChars i) rest (rtype_colon _) rfl (intChars_noLF i)]
    exact congrArg Prod.fst (congrArg (fun e => (e, ())) (parseInt64_intChars i hlo hhi)) |>.trans rfl
  · intro b rest ks hks
    have hform : encodeBulkString b ++ rest
        = '$' :: (natChars b.length ++ '\r' :: '\n' :: (b ++ '\r' :: '\n' :: rest)) := by
      simp [encodeBulkString, crlf]
    constructor
    · rw [hform, bulk_extract_eval b rest _ _ (rtype_bulk b.length _) rfl rfl]
    · exact readMany_spec ks b crlf b.length (Nat.le_refl _) hks
  · intro es rest h
    have hform : encodeArray es ++ rest
        = '*' :: (natChars es.length ++ '\r' :: '\n' :: ((es.map encodeFlat).flatten ++ rest)) := by
      simp [encodeArray, crlf]
    constructor
    · rw [hform, RESP.Array]
      simp only [rtype_star es.length ((es.map encodeFlat).flatten ++ rest)]
      rw [if_pos trivial]
      simp only [Int.toNat_ofNat, produceElems_flat es rest h]
    · rw [show es.length = (es.map materializeFlat).length by simp]
      rw [nextExtract_pending (es.map materializeFlat) (es.map materializeFlat).length]
      rw [List.map_map]
      apply List.map_congr_left
      intro v hv
      exact extractFlat_materialize v (h v hv)

/-- C1 counterexample: the wire encoding of the array [Integer 1, Integer 2],
decoded via Array then Next per element, does not return the payload — producing
the first Integer element drains the shared stream into the element's line
scanner, so the second element classifies as Unknown and its Int accessor fails
with ErrInvalidType instead of returning 2. -/
theorem claim_C1_counterexample :
    "*2\r\n:1\r\n:2\r\n".toList
        = '*' :: (natChars 2 ++ '\r' :: '\n' :: (encodeInteger 1 ++ encodeInteger 2)) ∧
    (RESP.new ("*2\r\n:1\r\n:2\r\n".toList)).Array
        = (.ok ⟨2, [⟨['1'], 0, .IntegerType⟩, ⟨[], 0, .UnknownType⟩], true, []⟩,
           ⟨[], 2, .UnknownType⟩) ∧
    ((⟨['1'], 0, .IntegerType⟩ : RESP).Int).1 = .ok 1 ∧
    ((⟨[], 0, .UnknownType⟩ : RESP).Int).1 = .error .errInvalidType := by
  refine ⟨by decide, by decide, by decide, by decide⟩

/-- C1 witness: the Integer conjunct of the round-trip theorem at i = 42. -/
theorem claim_C1_witness :
    ((RESP.new (encodeInteger 42 ++ [])).Int).1 = .ok 42 :=
  claim_C1_roundtrip.2.2.1 42 [] (by decide) (by decide)

/-- C2: for every declared length L (including 0) and every partition of the
consumer's reads into calls whose sizes sum to at least L, the bounded reader
returned by BulkString exposes exactly the L payload bytes, and the underlying
stream has additionally been drained of the payload and the 2 trailing CRLF
bytes, so it is positioned exactly at the start of the next value. The initial
state is a BulkString-classified value as Type() leaves it. -/
theorem claim_C2_bulk_bounded (L : Nat) (P rest : List Char) (ks : List Nat)
    (hP : P.length = L) (hks : L ≤ ks.sum) :
    (RESP.mk (P ++ '\r' :: '\n' :: rest) (L : Int) .BulkStringType).BulkString
      = (.ok ⟨P ++ crlf, L, 2, (L : Int)⟩, ⟨rest, (L : Int), .UnknownType⟩) ∧
    ((FfReader.mk (P ++ crlf) L 2 (L : Int)).readMany ks).1 = P ∧
    ((FfReader.mk (P ++ crlf) L 2 (L : Int)).readMany ks).1.length = L := by
  subst hP
  refine ⟨?_, ?_, ?_⟩
  · exact bulk_extract_eval P rest _ _
      (rtype_cached ⟨P ++ '\r' :: '\n' :: rest, (P.length : Int), .BulkStringType⟩ (by simp))
      rfl rfl
  · exact readMany_spec ks P crlf P.length (Nat.le_refl _) hks
  · rw [readMany_spec ks P crlf P.length (Nat.le_refl _) hks]

/-- C2 witness: L = 3, payload "abc", read in two calls of 2 bytes. -/
theorem claim_C2_witness :
    (RESP.mk ("abc\r\nZ".toList) (3 : Int) .BulkStringType).BulkString
      = (.ok ⟨"abc\r\n".toList, 3, 2, 3⟩, ⟨['Z'], 3, .UnknownType⟩) ∧
    ((FfReader.mk ("abc\r\n".toList) 3 2 3).readMany [2, 2]).1 = "abc".toList ∧
    ((FfReader.mk ("abc\r\n".toList) 3 2 3).readMany [2, 2]).1.length = 3 :=
  claim_C2_bulk_bounded 3 ("abc".toList) ['Z'] [2, 2] (by decide) (by decide)

/-- C5 (amended): Type() is idempotent for every classification it caches —
SimpleString, Error, Integer, BulkString, Array, Invalid — and for Unknown
(clean end of stream, where nothing is consumed); a Null classification is
not cached, so the claim's universal form fails there (see counterexample):
the second call reads on past the consumed null header. -/
theorem claim_C5_type_idempotent (r0 : RESP) (h0 : r0.redisType = .UnknownType)
    (hn : (r0.rtype).1 ≠ .NullType) :
    ((r0.rtype).2).rtype = r0.rtype := by
  rw [rtype_fresh r0 h0]
  rcases hr : r0.r with _ | ⟨c, s⟩
  · simp only []
    rw [rtype_fresh r0 h0, hr]
  · simp only []
    rcases ht : typeMapLookup c <;> simp only []
    case UnknownType => exact rtype_cached _ (by simp)
    case InvalidType => exact rtype_cached _ (by simp)
    case SimpleStringType => exact rtype_cached _ (by simp)
    case ErrorType => exact rtype_cached _ (by simp)
    case IntegerType => exact rtype_cached _ (by simp)
    case NullType => exact rtype_cached _ (by simp)
    case BulkStringType =>
      by_cases hel : (extractLength s).1 = -1
      · exfalso
        apply hn
        rw [rtype_fresh r0 h0, hr]
        simp only []
        rw [ht]
        simp only []
        rw [if_pos hel]
      · rw [if_neg hel]
        exact rtype_cached _ (by simp)
    case ArrayType =>
      by_cases hel : (extractLength s).1 = -1
      · exfalso
        apply hn
        rw [rtype_fresh r0 h0, hr]
        simp only []
        rw [ht]
        simp only []
        rw [if_pos hel]
      · rw [if_neg hel]
        exact rtype_cached _ (by simp)

/-- C5 counterexample: on the stream "$-1\r\n+OK\r\n" the first Type() call
returns Null, but the classification is not cached — the second call consumes
further bytes and returns SimpleString, not Null. -/
theorem claim_C5_counterexample :
    ((RESP.new ("$-1\r\n+OK\r\n".toList)).rtype).1 = .NullType ∧
    (((RESP.new ("$-1\r\n+OK\r\n".toList)).rtype).2).rtype
      ≠ (RESP.new ("$-1\r\n+OK\r\n".toList)).rtype ∧
    ((((RESP.new ("$-1\r\n+OK\r\n".toList)).rtype).2).rtype).1 = .SimpleStringType := by
  refine ⟨by decide, by decide, by decide⟩

/-- C5 witness: a SimpleString classification is cached, so a second Type() call
returns the same pair with no consumption. -/
theorem claim_C5_witness :
    (RESP.new ("+OK\r\n".toList)).redisType = .UnknownType ∧
    (((RESP.new ("+OK\r\n".toList)).rtype).2).rtype = (RESP.new ("+OK\r\n".toList)).rtype :=
  ⟨rfl, claim_C5_type_idempotent (RESP.new ("+OK\r\n".toList)) rfl (by decide)⟩

/-- C6: a stream beginning with a dollar or asterisk framing byte and length -1
classifies as Null, and exactly the framing byte and the length field (the
characters -1 and the terminating CRLF) are consumed: the stream left in the
value is exactly the suffix after them, and no classification is cached. -/
theorem claim_C6_null_header (rest : List Char) :
    (RESP.new ('$' :: '-' :: '1' :: '\r' :: '\n' :: rest)).rtype
        = (.NullType, ⟨rest, -1, .UnknownType⟩) ∧
    (RESP.new ('*' :: '-' :: '1' :: '\r' :: '\n' :: rest)).rtype
        = (.NullType, ⟨rest, -1, .UnknownType⟩) := by
  have hel : extractLength ('-' :: '1' :: '\r' :: '\n' :: rest) = (-1, rest) := by
    have hsplit : splitSign ('-' :: '1' :: '\r' :: '\n' :: rest)
        = (true, '1' :: '\r' :: '\n' :: rest) := by
      rw [splitSign]
      simp
    have htw := takeWhile_append_all (p := Char.isDigit) ['1'] ('\r' :: '\n' :: rest)
      (by intro c hc; simp at hc; subst hc; decide)
      (by intro x l hx; cases hx; decide)
    simp only [List.cons_append, List.nil_append] at htw
    simp only [extractLength, hsplit, htw.1, htw.2]
    simp [consumeCRLF, digitsToNat, digitVal]
  constructor
  · rw [rtype_dollar, hel]
    simp
  · rw [rtype_asterisk, hel]
    simp

/-- C7: on a value whose classification T is cached, every extractor for a type
other than T fails with ErrInvalidType and leaves the value (and hence the
stream and the cached classification) completely unchanged; consequently the
correct extractor afterwards behaves exactly as if the wrong call had never
happened (last conjunct, for the SimpleString case). -/
theorem claim_C7_wrong_extractor (r : RESP) (t : RedisType) (hc : r.redisType = t)
    (ht : ¬ t = .UnknownType) :
    (¬ t = .SimpleStringType → r.SimpleString = (.error .errInvalidType, r)) ∧
    (¬ t = .ErrorType → r.Error = (.error .errInvalidType, r)) ∧
    (¬ t = .IntegerType → r.Int = (.error .errInvalidType, r)) ∧
    (¬ t = .BulkStringType → r.BulkString = (.error .errInvalidType, r)) ∧
    (¬ t = .ArrayType → r.Array = (.error .errInvalidType, r)) ∧
    (t = .SimpleStringType → ((r.Int).2).SimpleString = r.SimpleString) := by
  have htc : r.rtype = (t, r) := by
    rw [rtype_cached r (by rw [hc]; exact ht), hc]
  refine ⟨?_, ?_, ?_, ?_, ?_, ?_⟩
  · intro hne
    rw [RESP.SimpleString]
    simp only [htc]
    rw [if_neg hne]
  · intro hne
    rw [RESP.Error]
    simp only [htc]
    rw [if_neg hne]
  · intro hne
    rw [RESP.Int]
    simp only [htc]
    rw [if_neg hne]
  · intro hne
    rw [RESP.BulkString]
    simp only [htc]
    rw [if_neg hne]
  · intro hne
    rw [RESP.Array]
    simp only [htc]
    rw [if_neg hne]
  · intro hss
    have hni : ¬ t = .IntegerType := by rw [hss]; intro hx; cases hx
    have : r.Int = (.error .errInvalidType, r) := by
      rw [RESP.Int]
      simp only [htc]
      rw [if_neg hni]
    rw [this]

/-- C7 witness: on a cached SimpleString value, Int fails with ErrInvalidType
leaving the value unchanged, and SimpleString still succeeds afterwards. -/
theorem claim_C7_witness :
    (⟨"OK\r\n".toList, 0, .SimpleStringType⟩ : RESP).redisType = .SimpleStringType ∧
    (⟨"OK\r\n".toList, 0, .SimpleStringType⟩ : RESP).Int
      = (.error .errInvalidType, ⟨"OK\r\n".toList, 0, .SimpleStringType⟩) ∧
    ((((⟨"OK\r\n".toList, 0, .SimpleStringType⟩ : RESP).Int).2).SimpleString).1
      = .ok ("OK".toList) :=
  ⟨rfl,
   (claim_C7_wrong_extractor ⟨"OK\r\n".toList, 0, .SimpleStringType⟩ .SimpleStringType rfl
      (by decide)).2.2.1 (by decide),
   by decide⟩

theorem intChars_ofNat (n : Nat) : intChars ((n : Nat) : Int) = natChars n := by
  rw [intChars, if_neg (by omega)]
  simp

theorem foldl_writeArg (args : List (List Char)) (c : Cmd) :
    args.foldl Cmd.WriteArgumentString c
      = ⟨{ c.conn with wire := c.conn.wire ++ (args.map bulkFrame).flatten }⟩ := by
  induction args generalizing c with
  | nil =>
    cases c with
    | mk conn => simp
  | cons a args ih =>
    rw [List.foldl_cons, ih]
    simp [Cmd.WriteArgumentString]

/-- C3 (amended): Command + WriteArgumentString per argument + Close places on
the wire exactly the RESP array-of-bulk-strings encoding of the command
followed by one extra CRLF pair, written by Close ("Close closes the command
with a CRLF"); in particular SET foo bar produces the expected frame plus a
trailing CRLF, not the claimed frame alone. -/
theorem claim_C3_command_encoding :
    (∀ command args,
       Conn.runCommand ⟨[], 0, false⟩ command args
         = some ⟨respCommandEncoding command args ++ crlf, 1, false⟩) ∧
    Conn.runCommand ⟨[], 0, false⟩ ("SET".toList) ["foo".toList, "bar".toList]
      = some ⟨"*3\r\n$3\r\nSET\r\n$3\r\nfoo\r\n$3\r\nbar\r\n\r\n".toList, 1, false⟩ := by
  constructor
  · intro command args
    rw [Conn.runCommand, Conn.Command, if_neg (by simp)]
    have hint : intChars ((args.length : Int) + 1) = natChars (args.length + 1) := by
      rw [show ((args.length : Int) + 1) = ((args.length + 1 : Nat) : Int) by push_cast; ring]
      exact intChars_ofNat _
    simp only [hint]
    rw [foldl_writeArg]
    rw [Cmd.Close, if_neg (by simp)]
    simp [Cmd.WriteArgumentString, respCommandEncoding]
  · decide

/-- C3 counterexample: at the claimed input SET foo bar, the wire bytes are the
claimed encoding followed by an extra CRLF, hence not exactly the claimed
bytes. -/
theorem claim_C3_counterexample :
    Conn.runCommand ⟨[], 0, false⟩ ("SET".toList) ["foo".toList, "bar".toList]
      = some ⟨"*3\r\n$3\r\nSET\r\n$3\r\nfoo\r\n$3\r\nbar\r\n\r\n".toList, 1, false⟩ ∧
    (Conn.runCommand ⟨[], 0, false⟩ ("SET".toList) ["foo".toList, "bar".toList]).map Conn.wire
      ≠ some ("*3\r\n$3\r\nSET\r\n$3\r\nfoo\r\n$3\r\nbar\r\n".toList) := by
  refine ⟨by decide, by decide⟩

/-- C10: Cmd.Close releases the connection's encode lock on every path — with
and without a transport write failure — and on the failure path it surfaces the
write error; a subsequent Command call on the resulting connection therefore
finds the lock free and proceeds instead of blocking. -/
theorem claim_C10_close_releases_lock (c : Cmd) (writeFails : Bool)
    (command : List Char) (args : Int) :
    ((c.Close writeFails).2).commandLock = false ∧
    (((c.Close writeFails).2).Command command args).isSome = true ∧
    (c.Close true).1 = some .errWrite ∧
    (c.Close false).1 = none := by
  have hlock : ∀ b : Bool, ((c.Close b).2).commandLock = false := by
    intro b
    rw [Cmd.Close]
    cases b with
    | true => rw [if_pos rfl]
    | false => rw [if_neg (by simp)]
  refine ⟨hlock writeFails, ?_, ?_, ?_⟩
  · rw [Conn.Command, if_neg (by rw [hlock writeFails]; simp)]
    rfl
  · rw [Cmd.Close, if_pos rfl]
  · rw [Cmd.Close, if_neg (by simp)]

theorem poolStep_inv (p : Pool) (st : PoolSt) (op : PoolOp) (h : poolInv p st) :
    poolInv p (poolStep p st op) := by
  obtain ⟨h1, h2⟩ := h
  cases op with
  | conn =>
    show poolInv p (p.Conn st)
    rw [Pool.Conn]
    cases hm : st.items with
    | zero => exact ⟨h1, h2⟩
    | succ n =>
      rw [hm] at h1
      constructor
      · show (n : Int) ≤ st.idle - 1
        push_cast at h1 ⊢
        omega
      · intro hpos
        have := h2 hpos
        show st.idle - 1 ≤ p.MaxIdle
        omega
  | put =>
    show poolInv p (p.put st).1
    rw [Pool.put]
    by_cases hc : p.MaxIdle ≠ 0 ∧ st.idle ≥ p.MaxIdle
    · rw [if_pos hc]
      exact ⟨h1, h2⟩
    · rw [if_neg hc]
      constructor
      · show ((st.items + 1 : Nat) : Int) ≤ st.idle + 1
        push_cast
        omega
      · intro hpos
        show st.idle + 1 ≤ p.MaxIdle
        rcases Decidable.not_and_iff_or_not.mp hc with hx | hx
        · omega
        · omega
  | gcDrop =>
    constructor
    · show ((st.items - 1 : Nat) : Int) ≤ st.idle
      have : ((st.items - 1 : Nat) : Int) ≤ (st.items : Int) := by omega
      omega
    · exact h2

theorem runPool_inv (p : Pool) (ops : List PoolOp) (st : PoolSt) (h : poolInv p st) :
    poolInv p (runPool p ops st) := by
  induction ops generalizing st with
  | nil => exact h
  | cons op ops ih => exact ih _ (poolStep_inv p st op h)

/-- C8: for every MaxIdle = k > 0 and every sequence of Conn(), put() and
garbage-collection events starting from the empty pool, the number of idle
connections held never exceeds k (neither the container contents nor the idle
counter); a release performed when the counter has reached k destroys the
released connection instead of pooling it; and with MaxIdle = 0 every release
is retained. -/
theorem claim_C8_pool_maxidle (k : Int) (ops : List PoolOp) (hk : 0 < k) :
    ((runPool ⟨k⟩ ops ⟨0, 0⟩).items : Int) ≤ k ∧
    (runPool ⟨k⟩ ops ⟨0, 0⟩).idle ≤ k ∧
    (∀ st : PoolSt, st.idle ≥ k → Pool.put ⟨k⟩ st = (st, true)) ∧
    (∀ st : PoolSt, (Pool.put ⟨0⟩ st).2 = false) := by
  have hinv := runPool_inv ⟨k⟩ ops ⟨0, 0⟩ ⟨by simp, by intro hx; show (0 : Int) ≤ k; omega⟩
  obtain ⟨h1, h2⟩ := hinv
  have hidle : (runPool ⟨k⟩ ops ⟨0, 0⟩).idle ≤ k := h2 hk
  have hitems : ((runPool ⟨k⟩ ops ⟨0, 0⟩).items : Int) ≤ (runPool ⟨k⟩ ops ⟨0, 0⟩).idle := h1
  refine ⟨by omega, hidle, ?_, ?_⟩
  · intro st hge
    exact if_pos ⟨show ¬ k = 0 by omega, hge⟩
  · intro st
    rw [Pool.put, if_neg (by simp)]

/-- C8 witness: k = 1 with two releases, one take and another release; plus the
destroy fact at an idle count of 1 and the retain fact for MaxIdle = 0. -/
theorem claim_C8_witness :
    ((runPool ⟨1⟩ [.put, .put, .conn, .put] ⟨0, 0⟩).items : Int) ≤ 1 ∧
    (runPool ⟨1⟩ [.put, .put, .conn, .put] ⟨0, 0⟩).idle ≤ 1 ∧
    Pool.put ⟨1⟩ ⟨1, 1⟩ = (⟨1, 1⟩, true) ∧
    (Pool.put ⟨0⟩ ⟨1, 1⟩).2 = false := by
  have h := claim_C8_pool_maxidle 1 [.put, .put, .conn, .put] (by decide)
  exact ⟨h.1, h.2.1, h.2.2.1 ⟨1, 1⟩ (by decide), h.2.2.2 ⟨1, 1⟩⟩

theorem cache_closed (a : RArray) : a.cache.chanClosed = a.chanClosed := rfl

theorem runArr_size (ops : List ArrOp) (a : RArray) :
    (runArr ops a).1 + arrSize (runArr ops a).2 = arrSize a ∧
    (runArr ops a).2.chanClosed = a.chanClosed := by
  induction ops generalizing a with
  | nil => exact ⟨by simp [runArr], rfl⟩
  | cons op ops ih =>
    obtain ⟨len, pending, closed, cached⟩ := a
    cases op with
    | next =>
      cases cached with
      | cons x xs =>
        have h := ih ⟨len, pending, closed, xs⟩
        simp only [runArr, RArray.Next]
        constructor
        · simp only [arrSize, List.length_cons] at h ⊢
          omega
        · exact h.2
      | nil =>
        cases pending with
        | cons e es =>
          have h := ih ⟨len, es, closed, []⟩
          simp only [runArr, RArray.Next]
          constructor
          · simp only [arrSize] at h ⊢
            simp at h ⊢
            omega
          · exact h.2
        | nil =>
          cases closed with
          | true =>
            have h := ih ⟨len, [], true, []⟩
            simp only [runArr, RArray.Next]
            exact ⟨h.1, h.2⟩
          | false =>
            have h := ih ⟨len, [], false, []⟩
            simp only [runArr, RArray.Next]
            exact ⟨h.1, h.2⟩
    | flush =>
      have h := ih (RArray.cache ⟨len, pending, closed, cached⟩)
      simp only [runArr]
      constructor
      · rw [h.1]
        simp [arrSize, RArray.cache]
      · rw [h.2]
        rfl

theorem next_closed_empty (a : RArray) (hc : a.chanClosed = true) (hs : arrSize a = 0) :
    a.Next = (some none, a) := by
  rw [arrSize] at hs
  rw [RArray.Next]
  cases hcc : a.cached with
  | cons x xs => rw [hcc] at hs; simp at hs
  | nil =>
    cases hpp : a.chanPending with
    | cons e es => rw [hpp] at hs; simp at hs
    | nil => rw [hc]; rfl

theorem produceElems_length (n : Nat) (s : List Char) :
    (produceElems n s).1.length = n := by
  induction n generalizing s with
  | zero => rfl
  | succ n ih =>
    rw [produceElems]
    simp [ih]

/-- C9: the Array producer publishes exactly the declared number of elements
and then closes the channel (first two conjuncts: the published list has the
declared length, and every Array() result starts closed with an empty cache
and a full queue); consequently, after any mix of Next calls and cache flushes
has delivered all N elements, every further Next call returns the nil element
immediately — a receive on the closed, drained channel — instead of
blocking. -/
theorem claim_C9_next_after_exhaustion :
    (∀ n s, (produceElems n s).1.length = n) ∧
    (∀ (r0 r1 : RESP) (a : RArray), r0.Array = (.ok a, r1) →
        a.chanClosed = true ∧ a.cached = [] ∧ a.chanPending.length = a.length) ∧
    (∀ (a : RArray) (ops : List ArrOp), a.chanClosed = true → a.cached = [] →
        (runArr ops a).1 = a.chanPending.length →
        (runArr ops a).2.Next = (some none, (runArr ops a).2)) := by
  refine ⟨produceElems_length, ?_, ?_⟩
  · intro r0 r1 a h
    rw [RESP.Array] at h
    by_cases ht : (r0.rtype).1 = .ArrayType
    · rw [if_pos ht] at h
      have ha : a = ⟨(r0.rtype).2.length.toNat,
          (produceElems (r0.rtype).2.length.toNat (r0.rtype).2.r).1, true, []⟩ := by
        have := congrArg Prod.fst h
        simp at this
        exact this.symm
      rw [ha]
      refine ⟨rfl, rfl, ?_⟩
      exact produceElems_length _ _
    · rw [if_neg ht] at h
      have := congrArg Prod.fst h
      simp at this
  · intro a ops hcl hcache hall
    have hsz := runArr_size ops a
    have hs0 : arrSize (runArr ops a).2 = 0 := by
      have : arrSize a = a.chanPending.length := by
        rw [arrSize, hcache]
        simp
      omega
    have hc2 : (runArr ops a).2.chanClosed = true := by
      rw [hsz.2, hcl]
    exact next_closed_empty _ hc2 hs0

/-- C9 witness: a two-element array delivered by one Next, a flush and another
Next; the next Next returns nil immediately. -/
theorem claim_C9_witness :
    (runArr [.next, .flush, .next] ⟨2, [RESP.new ['a'], RESP.new ['b']], true, []⟩).1
        = 2 ∧
    (runArr [.next, .flush, .next] ⟨2, [RESP.new ['a'], RESP.new ['b']], true, []⟩).2.Next
        = (some none, (runArr [.next, .flush, .next]
            ⟨2, [RESP.new ['a'], RESP.new ['b']], true, []⟩).2) :=
  ⟨by decide,
   claim_C9_next_after_exhaustion.2.2 ⟨2, [RESP.new ['a'], RESP.new ['b']], true, []⟩
     [.next, .flush, .next] rfl rfl (by decide)⟩

theorem subsOf_mem {c q : Nat} {reg : List (Nat × Nat)} (h : q ∈ subsOf c reg) :
    (c, q) ∈ reg := by
  rw [subsOf] at h
  obtain ⟨p, hp, hq⟩ := List.mem_map.mp h
  have hf := List.mem_filter.mp hp
  have hc : p.1 = c := by
    have := hf.2
    simpa using this
  have : p = (c, q) := by
    cases p
    simp at hc hq
    simp [hc, hq]
  rw [← this]
  exact hf.1

theorem psStep_inv (s s1 : PsState) (e : PsEvent) (h : psInv s)
    (hs : psStep s e = some s1) : psInv s1 := by
  obtain ⟨reg, infl, w, uns, ret, bad⟩ := s
  obtain ⟨hbad, hret, hinf, hwr, huns⟩ := h
  cases e with
  | rlock c =>
    simp only [psStep] at hs
    by_cases hc : w = true ∨ infl.isSome = true
    · rw [if_pos hc] at hs
      cases hs
    · rw [if_neg hc] at hs
      injection hs with hs
      subst hs
      rw [not_or] at hc
      refine ⟨hbad, hret, ?_, ?_, huns⟩
      · intro c2 subs hi q hq hmem
        injection hi with hi
        injection hi with hi1 hi2
        subst hi1
        subst hi2
        exact hret _ hmem (subsOf_mem hq)
      · intro hw
        exact absurd hw hc.1
  | push q =>
    cases infl with
    | none => simp [psStep] at hs
    | some cs =>
      obtain ⟨c, subs⟩ := cs
      simp only [psStep] at hs
      by_cases hq : q ∈ subs
      · rw [if_pos hq] at hs
        injection hs with hs
        subst hs
        have hnr : (c, q) ∉ ret := hinf c subs rfl q hq
        refine ⟨?_, hret, ?_, ?_, huns⟩
        · show ((bad = true) ∨ (c, q) ∈ ret : Bool) = false
          have hb : bad = false := hbad
          simp [hb, hnr]
        · intro c2 subs2 hi q2 hq2 hmem
          injection hi with hi
          injection hi with hi1 hi2
          subst hi1
          subst hi2
          exact hinf _ subs rfl q2 (List.mem_of_mem_erase hq2) hmem
        · intro hw
          have := hwr hw
          cases this
      · rw [if_neg hq] at hs
        cases hs
  | runlock =>
    cases infl with
    | none => simp [psStep] at hs
    | some cs =>
      obtain ⟨c, subs⟩ := cs
      cases subs with
      | nil =>
        simp only [psStep] at hs
        injection hs with hs
        subst hs
        refine ⟨hbad, hret, ?_, ?_, huns⟩
        · intro c2 subs2 hi
          cases hi
        · intro hw
          rfl
      | cons x xs => simp [psStep] at hs
  | wlock c q =>
    simp only [psStep] at hs
    by_cases hc : w = true ∨ infl.isSome = true ∨ uns.isSome = true
    · rw [if_pos hc] at hs
      cases hs
    · rw [if_neg hc] at hs
      injection hs with hs
      subst hs
      rw [not_or, not_or] at hc
      have hinfl : infl = none := by
        cases infl with
        | none => rfl
        | some z =>
          exfalso
          exact hc.2.1 rfl
      refine ⟨hbad, ?_, ?_, ?_, ?_⟩
      · intro cq hcq hmem
        have := List.mem_filter.mp hmem
        exact hret cq hcq this.1
      · intro c2 subs hi
        rw [hinfl] at hi
        cases hi
      · intro hw
        exact hinfl
      · intro cq hcq hmem
        injection hcq with hcq
        subst hcq
        have := List.mem_filter.mp hmem
        simp at this
  | wunlock =>
    cases uns with
    | none => simp [psStep] at hs
    | some cq =>
      simp only [psStep] at hs
      by_cases hw : w = true
      · rw [if_pos hw] at hs
        injection hs with hs
        subst hs
        have hinfl : infl = none := hwr hw
        refine ⟨hbad, ?_, ?_, ?_, ?_⟩
        · intro cq2 hcq2 hmem
          rcases List.mem_cons.mp hcq2 with h1 | h2
          · subst h1
            exact huns cq2 rfl hmem
          · exact hret cq2 h2 hmem
        · intro c2 subs hi q2 hq2 hmem
          rw [hinfl] at hi
          cases hi
        · intro hx
          exact hinfl
        · intro cq2 hcq2
          cases hcq2
      · rw [if_neg hw] at hs
        cases hs

theorem psRun_inv (tr : List PsEvent) (s sf : PsState) (h : psInv s)
    (hr : psRun s tr = some sf) : psInv sf := by
  induction tr generalizing s with
  | nil =>
    rw [psRun] at hr
    injection hr with hr
    subst hr
    exact h
  | cons e tr ih =>
    rw [psRun] at hr
    match hst : psStep s e with
    | none => rw [hst] at hr; cases hr
    | some s1 =>
      rw [hst] at hr
      exact ih s1 (psStep_inv s s1 e h hst) hr

/-- C4: in the interleaving system of the dispatcher's fan-out (sub.receive:
snapshot and deliver under the read lock) and Conn.Unsubscribe (delete under
the write lock, return on unlock), no reachable trace ever pushes a message
for channel ch onto a queue whose Unsubscribe(ch, queue) call has already
returned — even when a delivery was in flight when Unsubscribe was called,
because Unsubscribe's write lock cannot be acquired until that delivery's
read lock is released. -/
theorem claim_C4_unsubscribe_no_push (reg : List (Nat × Nat)) (tr : List PsEvent)
    (sf : PsState) (hr : psRun (psInit reg) tr = some sf) :
    sf.badPush = false := by
  have hinv : psInv (psInit reg) := by
    refine ⟨rfl, ?_, ?_, ?_, ?_⟩
    · intro cq h
      cases h
    · intro c subs h
      cases h
    · intro h
      rfl
    · intro cq h
      cases h
  exact (psRun_inv tr (psInit reg) sf hinv hr).1

/-- C4 witness: queue 7 receives a message on channel 1, unsubscribes, and a
later message round no longer pushes to it. -/
theorem claim_C4_witness :
    psRun (psInit [(1, 7), (1, 8)])
        [.rlock 1, .push 7, .push 8, .runlock, .wlock 1 7, .wunlock, .rlock 1, .push 8, .runlock]
      = some ⟨[(1, 8)], none, false, none, [(1, 7)], false⟩ ∧
    (⟨[(1, 8)], none, false, none, [(1, 7)], false⟩ : PsState).badPush = false :=
  ⟨by decide,
   claim_C4_unsubscribe_no_push [(1, 7), (1, 8)]
     [.rlock 1, .push 7, .push 8, .runlock, .wlock 1 7, .wunlock, .rlock 1, .push 8, .runlock]
     ⟨[(1, 8)], none, false, none, [(1, 7)], false⟩ (by decide)⟩

end ShipRedis
